import Mathlib

/-! # The ark driver (`src/main.c`)

A shallow embedding of `readFile`, `startCompiling` and `main` of `src/main.c`.

The driver is modelled as a function from the collaborators it calls (the C library's file
operations, the lexer and the parser, none of which is part of `main.c`) to a `Run`: the list of
observable events the driver performs, in order, and the way control leaves it (a `return`, or a
call of `exit`).

Two steps of `main.c` have no defined behaviour in C: a store into `tokens` at an index that is
not below `TOKEN_LIST_MAX_SIZE`, and a use of the pointer `contents` that `readFile` never
assigned. The functions below do not stop there: they record the step (the store with its
index, the call with the pointer it is given) and go on. A trace is a run of the C program up to
the first such step, and as a whole when it has none (`wellDefined`); what a trace holds after
such a step says nothing about the program. Where a theorem below speaks of a trace that is
not `wellDefined`, what it says of the program is the part up to that step.
-/

namespace Ark

/-! ## Data model -/

/-- Modelled from the spec: `lexer.h` is absent; the closed enumeration of token classes, of
which `main.c` names `END_OF_FILE` only. -/
inductive TokenClass where
  | END_OF_FILE
  | IDENTIFIER
  | KEYWORD
  | NUMBER_LITERAL
  | STRING_LITERAL
  | OPERATOR
  | PUNCTUATION
  | ERROR
  deriving DecidableEq, Repr

/-- Modelled from the spec: `lexer.h` is absent; a token is a class (the field `class` that
`main.c` reads), a lexeme and a source position. -/
structure TokenType where
  «class» : TokenClass
  lexeme : String
  position : Nat
  deriving DecidableEq, Repr

/-- The value of a `char *contents`: either an indeterminate pointer (the variable was never
assigned), or a buffer, each of whose bytes is written (`some c`) or not (`none`). -/
inductive Contents where
  | indeterminate
  | buffer (cells : List (Option Char))
  deriving DecidableEq, Repr

/-- What the C library answers to the calls `readFile` makes for one file name. -/
structure FileOps where
  /-- Whether `fopen(fileName, "r")` is not `NULL`. -/
  fopen : Bool
  /-- The value of `fseek(file, 0, SEEK_END)`. -/
  fseekEnd : Int
  /-- The value of `ftell(file)`: `none` is the failure value `-1`, `some n` the offset `n`. -/
  ftell : Option Nat
  /-- Whether `malloc` returns a pointer that is not `NULL`. -/
  malloc : Bool
  /-- The value of `fseek(file, 0, SEEK_SET)`. -/
  fseekSet : Int
  /-- The bytes `fread` can deliver, from the start of the file. -/
  data : List Char

/-- The collaborators of `main.c` that are not part of it. -/
structure World where
  /-- The constant `TOKEN_LIST_MAX_SIZE` of the absent `lexer.h`: the size of the array. -/
  TOKEN_LIST_MAX_SIZE : Nat
  /-- The C library's answers for each file name. -/
  file : String → FileOps
  /-- The token that the `k`-th call of `getNextToken` (counted from 0) leaves in
  `lexer->token`, for a lexer created over the given source. -/
  scan : Contents → Nat → TokenType
  /-- The value of `parseToAST`, for a parser created over the given cells and length. -/
  parse : List (Option TokenType) → Nat → Bool

/-- The observable steps of the driver. -/
inductive Event where
  | perror (msg : String)
  | printf (msg : String)
  | exit (code : Nat)
  | fclose
  | createLexer (source : Contents)
  | getNextToken
  | store (index : Nat) (token : TokenType)
  | destroyLexer
  | createParser (tokens : List (Option TokenType)) (length : Nat)
  | parseToAST (result : Bool)
  | destroyParser
  | free (pointer : Contents)
  deriving DecidableEq, Repr

/-- How control leaves a function: it returns a value, the process exits with a code, or the
model ran out of fuel before either. -/
inductive Outcome (α : Type) where
  | returned (value : α)
  | exited (code : Nat)
  | outOfFuel
  deriving DecidableEq, Repr

/-- An execution: the events in order, and how it ended. -/
structure Run (α : Type) where
  trace : List Event
  outcome : Outcome α
  deriving DecidableEq, Repr

/-- Sequencing: the second part runs only when the first one returned. -/
def Run.andThen {α β : Type} (r : Run α) (k : α → Run β) : Run β :=
  match r.outcome with
  | .returned a => ⟨r.trace ++ (k a).trace, (k a).outcome⟩
  | .exited c => ⟨r.trace, .exited c⟩
  | .outOfFuel => ⟨r.trace, .outOfFuel⟩

/-- The exit status of the process whose `main` ran so: the code given to `exit`, or the
value `main` returned. -/
def Run.status (r : Run Nat) : Option Nat :=
  match r.outcome with
  | .returned c => some c
  | .exited c => some c
  | .outOfFuel => none

/-! ## The lexer, as `main.c` sees it -/

/-- A `Lexer`, as far as `main.c` depends on it; `lexer.c` is absent, and what its
`getNextToken` produces is a parameter. -/
structure Lexer where
  /-- What the `k`-th call of `getNextToken` (counted from 0) produces. -/
  output : Nat → TokenType
  /-- The number of calls of `getNextToken` made so far. -/
  calls : Nat

/-- `createLexer(source)`: no token read yet. -/
def createLexer (w : World) (source : Contents) : Lexer :=
  { output := w.scan source, calls := 0 }

/-- `getNextToken(lexer)`: leaves the next token in `lexer->token`. -/
def getNextToken (l : Lexer) : Lexer :=
  { l with calls := l.calls + 1 }

/-- The field `lexer->token`: what the latest call of `getNextToken` produced. -/
def Lexer.token (l : Lexer) : TokenType :=
  l.output (l.calls - 1)

/-! ## `readFile` -/

/-- `readFile` of `main.c`. -/
def readFile (f : FileOps) : Run Contents :=
  if f.fopen then
    if f.fseekEnd = 0 then
      match f.ftell with
      | none => ⟨[.perror "ftell: could not read filesize", .exit 1], .exited 1⟩
      | some fileSize =>
        if !f.malloc then
          ⟨[.perror "malloc: failed to allocate memory for file", .exit 1], .exited 1⟩
        else if f.fseekSet ≠ 0 then
          ⟨[.perror "could not reset file index", .exit 1], .exited 1⟩
        else
          let fileLength := min fileSize f.data.length
          if fileLength = 0 then
            ⟨[.perror "fread: file is empty", .exit 1], .exited 1⟩
          else
            ⟨[.fclose], .returned (.buffer ((f.data.take fileLength).map some
              ++ List.replicate (fileSize - fileLength) none ++ [some (Char.ofNat 0)]))⟩
    else
      ⟨[.fclose], .returned .indeterminate⟩
  else
    ⟨[.perror "fopen: could not read file", .exit 1], .exited 1⟩

/-! ## `startCompiling` -/

/-- The local state of the `do ... while` loop of `startCompiling`. The `int index` is a
natural number here: it never exceeds `TOKEN_LIST_MAX_SIZE + 1`. -/
structure LoopState where
  lexer : Lexer
  /-- The array `tokens`, as the stores made into it, the latest first. -/
  tokens : List (Nat × TokenType)
  index : Nat
  trace : List Event

/-- The `do ... while` loop of `startCompiling`, lines 53 to 61: each unit of fuel pays for one
execution of the body. The state is returned when the loop condition is found false. The store
of line 59 is recorded with its index, inside the array or not; the function is the loop of
`main.c` as long as that index is below `TOKEN_LIST_MAX_SIZE`. -/
def tokenLoop (w : World) : Nat → LoopState → Run LoopState
  | 0, st => ⟨st.trace, .outOfFuel⟩
  | fuel + 1, st =>
    let lexer := getNextToken st.lexer
    let trace := st.trace ++ [.getNextToken]
    if st.index > w.TOKEN_LIST_MAX_SIZE then
      ⟨trace ++ [.printf "token overflow!\n", .exit 1], .exited 1⟩
    else
      let token := lexer.token
      let st1 : LoopState :=
        { lexer := lexer
          tokens := (st.index, token) :: st.tokens
          index := st.index + 1
          trace := trace ++ [.store st.index token] }
      if token.«class» ≠ .END_OF_FILE then
        tokenLoop w fuel st1
      else
        ⟨st1.trace, .returned st1⟩

/-- The cells `tokens[0]`, ..., `tokens[length - 1]`, as a reader of the array finds them. -/
def readTokens (tokens : List (Nat × TokenType)) (length : Nat) : List (Option TokenType) :=
  (List.range length).map fun i => tokens.lookup i

/-- `startCompiling` of `main.c`, the loop given `fuel` units of fuel. -/
def startCompilingFuel (w : World) (fuel : Nat) (source : Contents) : Run Unit :=
  let lexer := createLexer w source
  let st0 : LoopState :=
    { lexer := lexer, tokens := [], index := 0, trace := [.createLexer source] }
  (tokenLoop w fuel st0).andThen fun st =>
    let cells := readTokens st.tokens st.index
    let ok := w.parse cells st.index
    ⟨[.destroyLexer, .createParser cells st.index, .parseToAST ok]
        ++ (if !ok then [.printf "No top level expression\n"] else [])
        ++ [.destroyParser],
      .returned ()⟩

/-- `startCompiling` of `main.c`: `TOKEN_LIST_MAX_SIZE + 2` executions of the loop body are
always enough for the loop to end. -/
def startCompiling (w : World) (source : Contents) : Run Unit :=
  startCompilingFuel w (w.TOKEN_LIST_MAX_SIZE + 2) source

/-! ## `main` -/

/-- `main` of `main.c`; `argc` is the length of `argv`. The pointer given to `free` is
recorded; the function is the `main` of `main.c` as long as the trace is `wellDefined`. -/
def main (w : World) (argv : List String) : Run Nat :=
  if argv.length > 1 then
    let fileName := argv.getD 1 ""
    (readFile (w.file fileName)).andThen fun sourceCode =>
      (startCompiling w sourceCode).andThen fun _ =>
        ⟨[.free sourceCode], .returned 0⟩
  else
    ⟨[.printf "error: no input files\n", .exit 1], .exited 1⟩

/-! ## Vocabulary of the statements -/

/-- Token `k` of the lexer's output is the first one of class `END_OF_FILE`. -/
def firstEOF (out : Nat → TokenType) (k : Nat) : Prop :=
  (out k).«class» = .END_OF_FILE ∧ ∀ j < k, (out j).«class» ≠ .END_OF_FILE

instance (out : Nat → TokenType) (k : Nat) : Decidable (firstEOF out k) :=
  inferInstanceAs (Decidable (_ ∧ _))

/-- The arguments of the calls of `createParser` in a trace, in order. -/
def parserCalls : List Event → List (List (Option TokenType) × Nat)
  | [] => []
  | .createParser cells length :: rest => (cells, length) :: parserCalls rest
  | _ :: rest => parserCalls rest

/-- The results of the calls of `parseToAST` in a trace, in order. -/
def parseResults : List Event → List Bool
  | [] => []
  | .parseToAST ok :: rest => ok :: parseResults rest
  | _ :: rest => parseResults rest

/-- The indices of the stores into `tokens` in a trace, in order. -/
def storeIndices : List Event → List Nat
  | [] => []
  | .store index _ :: rest => index :: storeIndices rest
  | _ :: rest => storeIndices rest

/-- Every store of the trace is inside the array `tokens[TOKEN_LIST_MAX_SIZE]`. -/
def storesInBounds (w : World) (t : List Event) : Prop :=
  ∀ i ∈ storeIndices t, i < w.TOKEN_LIST_MAX_SIZE

instance (w : World) (t : List Event) : Decidable (storesInBounds w t) :=
  inferInstanceAs (Decidable (∀ i ∈ storeIndices t, i < w.TOKEN_LIST_MAX_SIZE))

/-- The trace has no step without a defined behaviour in C: every store is inside the array,
and the never-assigned pointer is given neither to `createLexer` nor to `free`. -/
def wellDefined (w : World) (t : List Event) : Prop :=
  storesInBounds w t ∧ Event.createLexer .indeterminate ∉ t ∧ Event.free .indeterminate ∉ t

instance (w : World) (t : List Event) : Decidable (wellDefined w t) :=
  inferInstanceAs (Decidable (_ ∧ _ ∧ _))

/-- The events of the first `n` executions of the loop body, none of which leaves the loop. -/
def loopEvents (out : Nat → TokenType) : Nat → List Event
  | 0 => []
  | n + 1 => loopEvents out n ++ [.getNextToken, .store n (out n)]

/-- The stores of the first `n` executions of the loop body, the latest first. -/
def storeLog (out : Nat → TokenType) : Nat → List (Nat × TokenType)
  | 0 => []
  | n + 1 => (n, out n) :: storeLog out n

/-- The events of `startCompiling` after a loop that ended with `index = n`. -/
def parseEvents (w : World) (out : Nat → TokenType) (n : Nat) : List Event :=
  let cells := (List.range n).map fun i => some (out i)
  [.destroyLexer, .createParser cells n, .parseToAST (w.parse cells n)]
    ++ (if !w.parse cells n then [.printf "No top level expression\n"] else [])
    ++ [.destroyParser]

/-! ## Sample inputs -/

/-- A token of class `END_OF_FILE`. -/
def eofToken : TokenType := ⟨.END_OF_FILE, "", 0⟩

/-- A token of another class. -/
def identToken : TokenType := ⟨.IDENTIFIER, "x", 0⟩

/-- A lexer that produces `n - 1` identifiers and then `END_OF_FILE`. -/
def sampleScan (n : Nat) : Contents → Nat → TokenType :=
  fun _ k => if k + 1 < n then identToken else eofToken

/-- A file of the one byte `x`, read without a failure. -/
def sampleFile : FileOps :=
  { fopen := true, fseekEnd := 0, ftell := some 1, malloc := true, fseekSet := 0, data := ['x'] }

/-- The buffer `readFile` returns for `sampleFile`. -/
def sampleSource : Contents := .buffer [some 'x', some (Char.ofNat 0)]

/-- A lexer that never produces `END_OF_FILE`. -/
def endlessScan : Contents → Nat → TokenType :=
  fun _ _ => identToken

/-- A file of zero bytes, on which no call fails. -/
def emptyFile : FileOps :=
  { fopen := true, fseekEnd := 0, ftell := some 0, malloc := true, fseekSet := 0, data := [] }

/-- A stream that opens and cannot seek, as a pipe. -/
def pipeFile : FileOps :=
  { fopen := true, fseekEnd := -1, ftell := none, malloc := true, fseekSet := -1, data := ['x'] }

/-- The world with an array of `size` tokens, the file `f`, a lexer that produces `n` tokens
of which the last is `END_OF_FILE`, and a parser that answers `ok`. -/
def sampleWorld (size : Nat) (f : FileOps) (n : Nat) (ok : Bool) : World :=
  { TOKEN_LIST_MAX_SIZE := size, file := fun _ => f, scan := sampleScan n, parse := fun _ _ => ok }

/-- The world with an array of `size` tokens, the file `sampleFile` and a lexer that never
produces `END_OF_FILE`. -/
def endlessWorld (size : Nat) : World :=
  { TOKEN_LIST_MAX_SIZE := size, file := fun _ => sampleFile, scan := endlessScan,
    parse := fun _ _ => true }

/-! ## The loop, step by step -/

theorem tokenLoop_steps (w : World) (out : Nat → TokenType) (T : List Event) (fuel : Nat) :
    ∀ c : Nat, c ≤ w.TOKEN_LIST_MAX_SIZE + 1 →
      (∀ j < c, (out j).«class» ≠ .END_OF_FILE) →
      tokenLoop w (fuel + c) ⟨⟨out, 0⟩, [], 0, T⟩
        = tokenLoop w fuel ⟨⟨out, c⟩, storeLog out c, c, T ++ loopEvents out c⟩ := by
  intro c
  induction c generalizing fuel with
  | zero => intro _ _; simp [loopEvents, storeLog]
  | succ c ih =>
    intro hc hne
    have h1 : fuel + (c + 1) = (fuel + 1) + c := by omega
    rw [h1, ih (fuel + 1) (by omega) (fun j hj => hne j (by omega))]
    have hle : ¬ c > w.TOKEN_LIST_MAX_SIZE := by omega
    have hcl : (out c).«class» ≠ .END_OF_FILE := hne c (by omega)
    simp [tokenLoop, getNextToken, Lexer.token, hle, hcl, loopEvents, storeLog]

theorem tokenLoop_ends (w : World) (out : Nat → TokenType) (T : List Event) (fuel k : Nat)
    (hk : k ≤ w.TOKEN_LIST_MAX_SIZE) (h : firstEOF out k) :
    tokenLoop w (fuel + 1 + k) ⟨⟨out, 0⟩, [], 0, T⟩
      = ⟨T ++ loopEvents out (k + 1),
          .returned ⟨⟨out, k + 1⟩, storeLog out (k + 1), k + 1, T ++ loopEvents out (k + 1)⟩⟩ := by
  rw [tokenLoop_steps w out T (fuel + 1) k (by omega) h.2]
  have hle : ¬ k > w.TOKEN_LIST_MAX_SIZE := by omega
  simp [tokenLoop, getNextToken, Lexer.token, hle, h.1, loopEvents, storeLog]

theorem tokenLoop_overflows (w : World) (out : Nat → TokenType) (T : List Event) (fuel : Nat)
    (h : ∀ j ≤ w.TOKEN_LIST_MAX_SIZE, (out j).«class» ≠ .END_OF_FILE) :
    tokenLoop w (fuel + 1 + (w.TOKEN_LIST_MAX_SIZE + 1)) ⟨⟨out, 0⟩, [], 0, T⟩
      = ⟨T ++ loopEvents out (w.TOKEN_LIST_MAX_SIZE + 1)
            ++ [.getNextToken, .printf "token overflow!\n", .exit 1],
          .exited 1⟩ := by
  rw [tokenLoop_steps w out T (fuel + 1) (w.TOKEN_LIST_MAX_SIZE + 1) (by omega)
    (fun j hj => h j (by omega))]
  simp [tokenLoop]

theorem lookup_storeLog (out : Nat → TokenType) :
    ∀ n i : Nat, i < n → (storeLog out n).lookup i = some (out i) := by
  intro n
  induction n with
  | zero => intro i hi; omega
  | succ n ih =>
    intro i hi
    by_cases h : i = n
    · subst h; simp [storeLog, List.lookup]
    · have hb : (i == n) = false := by simpa using h
      simp only [storeLog, List.lookup, hb]
      exact ih i (by omega)

theorem readTokens_storeLog (out : Nat → TokenType) (n : Nat) :
    readTokens (storeLog out n) n = (List.range n).map fun i => some (out i) := by
  unfold readTokens
  apply List.map_congr_left
  intro i hi
  exact lookup_storeLog out n i (List.mem_range.mp hi)

/-- Either some token of index at most `m` is the first of class `END_OF_FILE`, or none of
them has that class. -/
theorem firstEOF_or_none (out : Nat → TokenType) (m : Nat) :
    (∃ k ≤ m, firstEOF out k) ∨ ∀ j ≤ m, (out j).«class» ≠ .END_OF_FILE := by
  by_cases h : ∃ j, (out j).«class» = .END_OF_FILE ∧ j ≤ m
  · left
    refine ⟨Nat.find h, (Nat.find_spec h).2, (Nat.find_spec h).1, ?_⟩
    intro j hj hcl
    exact Nat.find_min h hj ⟨hcl, by have := (Nat.find_spec h).2; omega⟩
  · right
    intro j hj hcl
    exact h ⟨j, hcl, hj⟩

/-! ## `startCompiling`, in closed form -/

/-- When the first `END_OF_FILE` is token `k` and `k ≤ TOKEN_LIST_MAX_SIZE`, the loop ends
with `index = k + 1` and the parser runs. -/
theorem startCompilingFuel_ends (w : World) (source : Contents) (extra k : Nat)
    (hk : k ≤ w.TOKEN_LIST_MAX_SIZE) (h : firstEOF (w.scan source) k) :
    startCompilingFuel w (k + 1 + extra) source
      = ⟨[.createLexer source] ++ loopEvents (w.scan source) (k + 1)
            ++ parseEvents w (w.scan source) (k + 1),
          .returned ()⟩ := by
  have h1 : k + 1 + extra = extra + 1 + k := by omega
  simp only [startCompilingFuel, createLexer, h1,
    tokenLoop_ends w (w.scan source) [.createLexer source] extra k hk h, Run.andThen,
    readTokens_storeLog, parseEvents]

/-- When none of the tokens `0`, ..., `TOKEN_LIST_MAX_SIZE` is `END_OF_FILE`, the trace has
the overflow exit in the execution of the loop body that follows their stores, the last of
which is at index `TOKEN_LIST_MAX_SIZE`, outside the array. -/
theorem startCompilingFuel_overflows (w : World) (source : Contents) (extra : Nat)
    (h : ∀ j ≤ w.TOKEN_LIST_MAX_SIZE, (w.scan source j).«class» ≠ .END_OF_FILE) :
    startCompilingFuel w (w.TOKEN_LIST_MAX_SIZE + 2 + extra) source
      = ⟨[.createLexer source] ++ loopEvents (w.scan source) (w.TOKEN_LIST_MAX_SIZE + 1)
            ++ [.getNextToken, .printf "token overflow!\n", .exit 1],
          .exited 1⟩ := by
  have h1 : w.TOKEN_LIST_MAX_SIZE + 2 + extra = extra + 1 + (w.TOKEN_LIST_MAX_SIZE + 1) := by
    omega
  simp only [startCompilingFuel, createLexer, h1,
    tokenLoop_overflows w (w.scan source) [.createLexer source] extra h, Run.andThen]

theorem startCompiling_ends (w : World) (source : Contents) (k : Nat)
    (hk : k ≤ w.TOKEN_LIST_MAX_SIZE) (h : firstEOF (w.scan source) k) :
    startCompiling w source
      = ⟨[.createLexer source] ++ loopEvents (w.scan source) (k + 1)
            ++ parseEvents w (w.scan source) (k + 1),
          .returned ()⟩ := by
  have h1 : w.TOKEN_LIST_MAX_SIZE + 2 = k + 1 + (w.TOKEN_LIST_MAX_SIZE + 1 - k) := by omega
  rw [startCompiling, h1]
  exact startCompilingFuel_ends w source _ k hk h

theorem startCompiling_overflows (w : World) (source : Contents)
    (h : ∀ j ≤ w.TOKEN_LIST_MAX_SIZE, (w.scan source j).«class» ≠ .END_OF_FILE) :
    startCompiling w source
      = ⟨[.createLexer source] ++ loopEvents (w.scan source) (w.TOKEN_LIST_MAX_SIZE + 1)
            ++ [.getNextToken, .printf "token overflow!\n", .exit 1],
          .exited 1⟩ :=
  startCompilingFuel_overflows w source 0 h

/-! ## Facts about traces -/

theorem mem_loopEvents (out : Nat → TokenType) (e : Event) :
    ∀ n : Nat, e ∈ loopEvents out n → e = .getNextToken ∨ ∃ j < n, e = .store j (out j) := by
  intro n
  induction n with
  | zero => intro h; simp [loopEvents] at h
  | succ n ih =>
    intro h
    simp only [loopEvents, List.mem_append, List.mem_cons, List.mem_singleton,
      List.not_mem_nil, or_false] at h
    rcases h with h | h | h
    · rcases ih h with h1 | ⟨j, hj, h1⟩
      · exact Or.inl h1
      · exact Or.inr ⟨j, by omega, h1⟩
    · exact Or.inl h
    · exact Or.inr ⟨n, by omega, h⟩

theorem count_getNextToken_loopEvents (out : Nat → TokenType) :
    ∀ n : Nat, (loopEvents out n).count .getNextToken = n := by
  intro n
  induction n with
  | zero => simp [loopEvents]
  | succ n ih => simp [loopEvents, List.count_cons, ih]

theorem parserCalls_append (a b : List Event) :
    parserCalls (a ++ b) = parserCalls a ++ parserCalls b := by
  induction a with
  | nil => rfl
  | cons e a ih => cases e <;> simp [parserCalls, ih]

theorem parseResults_append (a b : List Event) :
    parseResults (a ++ b) = parseResults a ++ parseResults b := by
  induction a with
  | nil => rfl
  | cons e a ih => cases e <;> simp [parseResults, ih]

theorem storeIndices_append (a b : List Event) :
    storeIndices (a ++ b) = storeIndices a ++ storeIndices b := by
  induction a with
  | nil => rfl
  | cons e a ih => cases e <;> simp [storeIndices, ih]

theorem parserCalls_loopEvents (out : Nat → TokenType) :
    ∀ n : Nat, parserCalls (loopEvents out n) = [] := by
  intro n
  induction n with
  | zero => rfl
  | succ n ih => simp [loopEvents, parserCalls_append, ih, parserCalls]

theorem parseResults_loopEvents (out : Nat → TokenType) :
    ∀ n : Nat, parseResults (loopEvents out n) = [] := by
  intro n
  induction n with
  | zero => rfl
  | succ n ih => simp [loopEvents, parseResults_append, ih, parseResults]

theorem storeIndices_loopEvents (out : Nat → TokenType) :
    ∀ n : Nat, storeIndices (loopEvents out n) = List.range n := by
  intro n
  induction n with
  | zero => rfl
  | succ n ih => simp [loopEvents, storeIndices_append, ih, storeIndices, List.range_succ]

theorem parserCalls_parseEvents (w : World) (out : Nat → TokenType) (n : Nat) :
    parserCalls (parseEvents w out n) = [((List.range n).map fun i => some (out i), n)] := by
  simp only [parseEvents]
  cases w.parse ((List.range n).map fun i => some (out i)) n <;> rfl

theorem parseResults_parseEvents (w : World) (out : Nat → TokenType) (n : Nat) :
    parseResults (parseEvents w out n)
      = [w.parse ((List.range n).map fun i => some (out i)) n] := by
  simp only [parseEvents]
  cases w.parse ((List.range n).map fun i => some (out i)) n <;> rfl

theorem storeIndices_parseEvents (w : World) (out : Nat → TokenType) (n : Nat) :
    storeIndices (parseEvents w out n) = [] := by
  simp only [parseEvents]
  cases w.parse ((List.range n).map fun i => some (out i)) n <;> rfl

theorem count_getNextToken_parseEvents (w : World) (out : Nat → TokenType) (n : Nat) :
    (parseEvents w out n).count .getNextToken = 0 := by
  simp only [parseEvents]
  cases w.parse ((List.range n).map fun i => some (out i)) n <;> simp [List.count_cons]

theorem mem_parseEvents (w : World) (out : Nat → TokenType) (n : Nat) (e : Event)
    (h : e ∈ parseEvents w out n) :
    e = .destroyLexer ∨ e = .createParser ((List.range n).map fun i => some (out i)) n ∨
      e = .parseToAST (w.parse ((List.range n).map fun i => some (out i)) n) ∨
      (e = .printf "No top level expression\n" ∧
        w.parse ((List.range n).map fun i => some (out i)) n = false) ∨
      e = .destroyParser := by
  simp only [parseEvents, List.mem_append, List.mem_cons, List.mem_singleton,
    List.not_mem_nil, or_false] at h
  rcases h with ((h | h | h) | h) | h
  · exact Or.inl h
  · exact Or.inr (Or.inl h)
  · exact Or.inr (Or.inr (Or.inl h))
  · split at h
    · rename_i hp
      simp only [List.mem_singleton] at h
      exact Or.inr (Or.inr (Or.inr (Or.inl ⟨h, by simpa using hp⟩)))
    · simp at h
  · exact Or.inr (Or.inr (Or.inr (Or.inr h)))

/-- A run in which the loop ends prints no overflow message and does not call `exit`. -/
theorem no_overflow_of_ends (w : World) (source : Contents) (n : Nat) (e : Event)
    (h : e ∈ [Event.createLexer source] ++ loopEvents (w.scan source) n
      ++ parseEvents w (w.scan source) n) :
    e ≠ .printf "token overflow!\n" ∧ e ≠ .exit 1 := by
  simp only [List.mem_append, List.mem_singleton] at h
  rcases h with (h | h) | h
  · subst h; exact ⟨by simp, by simp⟩
  · rcases mem_loopEvents _ _ _ h with h | ⟨j, _, h⟩ <;> subst h <;> exact ⟨by simp, by simp⟩
  · rcases mem_parseEvents _ _ _ _ h with h | h | h | ⟨h, _⟩ | h <;> subst h <;>
      exact ⟨by simp, by simp⟩

theorem count_printf_loopEvents (out : Nat → TokenType) (m : String) :
    ∀ n : Nat, (loopEvents out n).count (.printf m) = 0 := by
  intro n
  induction n with
  | zero => simp [loopEvents]
  | succ n ih => simp [loopEvents, List.count_cons, ih]

theorem count_message_parseEvents (w : World) (out : Nat → TokenType) (n : Nat) :
    (parseEvents w out n).count (.printf "No top level expression\n")
      = if w.parse ((List.range n).map fun i => some (out i)) n then 0 else 1 := by
  simp only [parseEvents]
  cases w.parse ((List.range n).map fun i => some (out i)) n <;> simp [List.count_cons]

/-- A trace in which one event only has the property `P` splits at that event in one way. -/
theorem split_unique (P : Event → Prop) (e e1 : Event) :
    ∀ pre pre1 post post1 : List Event, pre ++ e :: post = pre1 ++ e1 :: post1 →
      P e → (∀ x ∈ pre1, ¬ P x) → (∀ x ∈ post1, ¬ P x) →
      pre = pre1 ∧ e = e1 ∧ post = post1 := by
  intro pre
  induction pre with
  | nil =>
    intro pre1 post post1 h he h1 _
    cases pre1 with
    | nil => simp at h; simp [h]
    | cons x pre1 =>
      simp at h
      exact absurd (h.1 ▸ he) (h1 x (by simp))
  | cons a pre ih =>
    intro pre1 post post1 h he h1 h2
    cases pre1 with
    | nil =>
      simp at h
      exact absurd he (h2 e (by rw [← h.2]; simp))
    | cons x pre1 =>
      simp at h
      obtain ⟨r1, r2, r3⟩ := ih pre1 post post1 h.2 he
        (fun y hy => h1 y (by simp [hy])) h2
      simp [h.1, r1, r2, r3]

/-- The two ways `startCompiling` runs: the loop ends at the first `END_OF_FILE`, or the
overflow exit is taken. -/
theorem startCompiling_cases (w : World) (source : Contents) :
    (∃ k ≤ w.TOKEN_LIST_MAX_SIZE, firstEOF (w.scan source) k ∧
        startCompiling w source
          = ⟨[.createLexer source] ++ loopEvents (w.scan source) (k + 1)
                ++ parseEvents w (w.scan source) (k + 1),
              .returned ()⟩) ∨
      ((∀ j ≤ w.TOKEN_LIST_MAX_SIZE, (w.scan source j).«class» ≠ .END_OF_FILE) ∧
        startCompiling w source
          = ⟨[.createLexer source]
                ++ loopEvents (w.scan source) (w.TOKEN_LIST_MAX_SIZE + 1)
                ++ [.getNextToken, .printf "token overflow!\n", .exit 1],
              .exited 1⟩) := by
  rcases firstEOF_or_none (w.scan source) w.TOKEN_LIST_MAX_SIZE with ⟨k, hk, h⟩ | h
  · exact Or.inl ⟨k, hk, h, startCompiling_ends w source k hk h⟩
  · exact Or.inr ⟨h, startCompiling_overflows w source h⟩

/-- A call of `createParser` in a run of `startCompiling` has the tokens up to the first
`END_OF_FILE` for arguments. -/
theorem createParser_mem_startCompiling (w : World) (source : Contents)
    (cells : List (Option TokenType)) (length : Nat)
    (h : Event.createParser cells length ∈ (startCompiling w source).trace) :
    ∃ k ≤ w.TOKEN_LIST_MAX_SIZE, firstEOF (w.scan source) k ∧
      cells = (List.range (k + 1)).map (fun i => some (w.scan source i)) ∧ length = k + 1 := by
  rcases startCompiling_cases w source with ⟨k, hk, hf, he⟩ | ⟨_, he⟩
  · refine ⟨k, hk, hf, ?_⟩
    rw [he] at h
    simp only [parseEvents, List.mem_append, List.mem_cons, List.mem_singleton,
      List.not_mem_nil, or_false, false_or] at h
    rcases h with (h | h) | ((h | h | h) | h) | h
    · cases h
    · rcases mem_loopEvents _ _ _ h with h | ⟨j, _, h⟩ <;> cases h
    · cases h
    · cases h; exact ⟨rfl, rfl⟩
    · cases h
    · split at h <;> simp at h
    · cases h
  · rw [he] at h
    simp only [List.mem_append, List.mem_cons, List.mem_singleton,
      List.not_mem_nil, or_false] at h
    rcases h with (h | h) | h | h | h
    · cases h
    · rcases mem_loopEvents _ _ _ h with h | ⟨j, _, h⟩ <;> cases h
    · cases h
    · cases h
    · cases h

/-! ## The claims about `startCompiling` -/

/-- C1: the token sequence that `startCompiling` hands to `createParser` is non-empty, its
length is the length passed, its last token has class `END_OF_FILE` and no earlier token of it
has; when the very first token is `END_OF_FILE`, the sequence handed over is that one token. -/
theorem parser_tokens_end_in_one_eof (w : World) (source : Contents) :
    (∀ (cells : List (Option TokenType)) (length : Nat),
      Event.createParser cells length ∈ (startCompiling w source).trace →
      ∃ toks : List TokenType, cells = toks.map some ∧ length = toks.length ∧ toks ≠ [] ∧
        (∃ t, toks.getLast? = some t ∧ t.«class» = .END_OF_FILE) ∧
        ∀ t ∈ toks.dropLast, t.«class» ≠ .END_OF_FILE) ∧
    ((w.scan source 0).«class» = .END_OF_FILE →
      parserCalls (startCompiling w source).trace = [([some (w.scan source 0)], 1)]) := by
  constructor
  · intro cells length h
    obtain ⟨k, _, hf, hc, hl⟩ := createParser_mem_startCompiling w source cells length h
    refine ⟨(List.range (k + 1)).map (w.scan source), ?_, ?_, ?_, ?_, ?_⟩
    · simp [hc]
    · simp [hl]
    · simp [List.range_succ]
    · exact ⟨w.scan source k, by simp [List.range_succ], hf.1⟩
    · intro t ht
      simp only [List.range_succ, List.map_append, List.map_cons, List.map_nil,
        List.dropLast_concat, List.mem_map, List.mem_range] at ht
      obtain ⟨j, hj, rfl⟩ := ht
      exact hf.2 j hj
  · intro h0
    have hf : firstEOF (w.scan source) 0 := ⟨h0, fun j hj => absurd hj (Nat.not_lt_zero j)⟩
    rw [startCompiling_ends w source 0 (Nat.zero_le _) hf]
    simp only [parserCalls_append, parserCalls_loopEvents, parserCalls_parseEvents]
    rfl

/-- C1, at a lexer output of three tokens and an array of four. -/
theorem parser_tokens_end_in_one_eof_witness :
    Event.createParser [some identToken, some identToken, some eofToken] 3
        ∈ (startCompiling (sampleWorld 4 sampleFile 3 true) .indeterminate).trace ∧
      ∃ toks : List TokenType,
        [some identToken, some identToken, some eofToken] = toks.map some ∧
        3 = toks.length ∧ toks ≠ [] ∧
        (∃ t, toks.getLast? = some t ∧ t.«class» = .END_OF_FILE) ∧
        ∀ t ∈ toks.dropLast, t.«class» ≠ .END_OF_FILE :=
  ⟨by decide,
    (parser_tokens_end_in_one_eof (sampleWorld 4 sampleFile 3 true) .indeterminate).1 _ _
      (by decide)⟩

/-- C2: wherever a call of `createParser` stands in the trace of `startCompiling`, the lexer
has a first `END_OF_FILE`, at some token `k`; the call receives the tokens `0`, ..., `k` that
`getNextToken` produced, in that order, and the length `k + 1`; `getNextToken` was called
`k + 1` times before it (so the last of these calls returned `END_OF_FILE`) and is never
called after it. -/
theorem parser_invoked_after_lexer (w : World) (source : Contents) (pre post : List Event)
    (cells : List (Option TokenType)) (length : Nat)
    (h : (startCompiling w source).trace = pre ++ Event.createParser cells length :: post) :
    ∃ k, firstEOF (w.scan source) k ∧
      cells = (List.range (k + 1)).map (fun i => some (w.scan source i)) ∧
      length = k + 1 ∧
      pre.count .getNextToken = k + 1 ∧
      Event.getNextToken ∉ post := by
  have hmem : Event.createParser cells length ∈ (startCompiling w source).trace := by
    rw [h]; simp
  obtain ⟨k, hk, hf, hc, hl⟩ := createParser_mem_startCompiling w source cells length hmem
  refine ⟨k, hf, hc, hl, ?_⟩
  rw [startCompiling_ends w source k hk hf] at h
  have hsplit : ([Event.createLexer source] ++ loopEvents (w.scan source) (k + 1)
        ++ parseEvents w (w.scan source) (k + 1))
      = (Event.createLexer source :: loopEvents (w.scan source) (k + 1) ++ [.destroyLexer])
        ++ Event.createParser ((List.range (k + 1)).map fun i => some (w.scan source i)) (k + 1)
          :: (Event.parseToAST
                (w.parse ((List.range (k + 1)).map fun i => some (w.scan source i)) (k + 1))
              :: ((if !w.parse ((List.range (k + 1)).map fun i => some (w.scan source i)) (k + 1)
                    then [Event.printf "No top level expression\n"] else [])
                  ++ [.destroyParser])) := by
    simp [parseEvents]
  have hP : ∀ x ∈ (Event.createLexer source :: loopEvents (w.scan source) (k + 1)
      ++ [.destroyLexer]), ¬ ∃ c l, x = Event.createParser c l := by
    intro x hx
    simp only [List.cons_append, List.mem_cons, List.mem_append, List.mem_singleton,
      List.not_mem_nil, or_false] at hx
    rintro ⟨c, l, rfl⟩
    rcases hx with hx | hx | hx
    · cases hx
    · rcases mem_loopEvents _ _ _ hx with hx | ⟨j, _, hx⟩ <;> cases hx
    · cases hx
  have hQ : ∀ x ∈ (Event.parseToAST
        (w.parse ((List.range (k + 1)).map fun i => some (w.scan source i)) (k + 1))
      :: ((if !w.parse ((List.range (k + 1)).map fun i => some (w.scan source i)) (k + 1)
            then [Event.printf "No top level expression\n"] else [])
          ++ [.destroyParser])), x ≠ .getNextToken ∧ ¬ ∃ c l, x = Event.createParser c l := by
    intro x hx
    simp only [List.mem_cons, List.mem_append, List.mem_singleton,
      List.not_mem_nil, or_false] at hx
    rcases hx with hx | hx | hx
    · subst hx; exact ⟨by simp, by simp⟩
    · split at hx
      · simp only [List.mem_singleton] at hx; subst hx; exact ⟨by simp, by simp⟩
      · simp at hx
    · subst hx; exact ⟨by simp, by simp⟩
  simp only [] at h
  rw [hsplit] at h
  obtain ⟨r1, _, r3⟩ := split_unique (fun x => ∃ c l, x = Event.createParser c l) _ _
    pre _ post _ h.symm ⟨cells, length, rfl⟩ hP (fun x hx => (hQ x hx).2)
  constructor
  · rw [r1]
    simp [List.count_cons, count_getNextToken_loopEvents]
  · rw [r3]
    intro hx
    exact (hQ _ hx).1 rfl

/-- C2, at a lexer output of three tokens and an array of four. -/
theorem parser_invoked_after_lexer_witness :
    ∃ k, firstEOF (sampleScan 3 .indeterminate) k ∧
      [some identToken, some identToken, some eofToken]
        = (List.range (k + 1)).map (fun i => some (sampleScan 3 .indeterminate i)) ∧
      3 = k + 1 ∧
      [Event.createLexer .indeterminate, .getNextToken, .store 0 identToken, .getNextToken,
        .store 1 identToken, .getNextToken, .store 2 eofToken, .destroyLexer].count
          .getNextToken = k + 1 ∧
      Event.getNextToken ∉ [Event.parseToAST true, .destroyParser] :=
  parser_invoked_after_lexer (sampleWorld 4 sampleFile 3 true) .indeterminate
    [.createLexer .indeterminate, .getNextToken, .store 0 identToken, .getNextToken,
      .store 1 identToken, .getNextToken, .store 2 eofToken, .destroyLexer]
    [.parseToAST true, .destroyParser]
    [some identToken, some identToken, some eofToken] 3 (by decide)

/-- C3, as stated, fails: the array holds `TOKEN_LIST_MAX_SIZE` tokens and no more. With an
array of two tokens and a lexer output of three tokens of which only the last is
`END_OF_FILE`, the third token is stored at index 2, outside the array: the three tokens are
not collected in `tokens`. -/
theorem unbounded_tokens_counterexample :
    1 ≤ 3 ∧ firstEOF ((sampleWorld 2 sampleFile 3 true).scan sampleSource) (3 - 1) ∧
      2 ∈ storeIndices (startCompiling (sampleWorld 2 sampleFile 3 true) sampleSource).trace ∧
      ¬ storesInBounds (sampleWorld 2 sampleFile 3 true)
        (startCompiling (sampleWorld 2 sampleFile 3 true) sampleSource).trace := by
  decide

/-- C3, amended: the token sequence is bounded by the array: when the lexer returns `n`
tokens of which only the last is `END_OF_FILE`, and `1 ≤ n ≤ TOKEN_LIST_MAX_SIZE`, the `n`
tokens are stored at the indices `0`, ..., `n - 1`, all inside the array, and passed to the
parser with the length `n`; no overflow message is printed and `exit` is not called. -/
theorem bounded_tokens_collected (w : World) (source : Contents) (n : Nat) (hn : 1 ≤ n)
    (hle : n ≤ w.TOKEN_LIST_MAX_SIZE) (h : firstEOF (w.scan source) (n - 1)) :
    storesInBounds w (startCompiling w source).trace ∧
      storeIndices (startCompiling w source).trace = List.range n ∧
      parserCalls (startCompiling w source).trace
        = [((List.range n).map (fun i => some (w.scan source i)), n)] ∧
      (startCompiling w source).outcome = .returned () ∧
      Event.printf "token overflow!\n" ∉ (startCompiling w source).trace ∧
      Event.exit 1 ∉ (startCompiling w source).trace := by
  have hn1 : n - 1 + 1 = n := by omega
  have he := startCompiling_ends w source (n - 1) (by omega) h
  rw [hn1] at he
  have hs : storeIndices (startCompiling w source).trace = List.range n := by
    rw [he]
    simp only [storeIndices_append, storeIndices_loopEvents, storeIndices_parseEvents]
    simp [storeIndices]
  refine ⟨?_, hs, ?_, ?_, ?_, ?_⟩
  · intro i hi
    rw [hs] at hi
    have := List.mem_range.mp hi
    omega
  · rw [he]
    simp only [parserCalls_append, parserCalls_loopEvents, parserCalls_parseEvents]
    rfl
  · rw [he]
  · rw [he]
    intro hm
    exact (no_overflow_of_ends w source n _ hm).1 rfl
  · rw [he]
    intro hm
    exact (no_overflow_of_ends w source n _ hm).2 rfl

/-- C3, amended, at a lexer output of two tokens and an array of two. -/
theorem bounded_tokens_collected_witness :
    storesInBounds (sampleWorld 2 sampleFile 2 true)
        (startCompiling (sampleWorld 2 sampleFile 2 true) sampleSource).trace ∧
      storeIndices (startCompiling (sampleWorld 2 sampleFile 2 true) sampleSource).trace
        = List.range 2 ∧
      parserCalls (startCompiling (sampleWorld 2 sampleFile 2 true) sampleSource).trace
        = [((List.range 2).map (fun i => some (sampleScan 2 sampleSource i)), 2)] ∧
      (startCompiling (sampleWorld 2 sampleFile 2 true) sampleSource).outcome = .returned () ∧
      Event.printf "token overflow!\n"
        ∉ (startCompiling (sampleWorld 2 sampleFile 2 true) sampleSource).trace ∧
      Event.exit 1 ∉ (startCompiling (sampleWorld 2 sampleFile 2 true) sampleSource).trace :=
  bounded_tokens_collected (sampleWorld 2 sampleFile 2 true) sampleSource 2 (by decide)
    (by decide) (by decide)

/-- C4, the failing input: when the first `END_OF_FILE` is token `TOKEN_LIST_MAX_SIZE`, so that
the tokens up to and including it number `TOKEN_LIST_MAX_SIZE + 1`, `startCompiling` prints no
overflow message and does not exit: it returns, after creating the parser over
`TOKEN_LIST_MAX_SIZE + 1` tokens. -/
theorem overflow_by_one_not_reported (w : World) (source : Contents)
    (h : firstEOF (w.scan source) w.TOKEN_LIST_MAX_SIZE) :
    (startCompiling w source).outcome = .returned () ∧
      Event.printf "token overflow!\n" ∉ (startCompiling w source).trace ∧
      Event.exit 1 ∉ (startCompiling w source).trace ∧
      parserCalls (startCompiling w source).trace
        = [((List.range (w.TOKEN_LIST_MAX_SIZE + 1)).map (fun i => some (w.scan source i)),
            w.TOKEN_LIST_MAX_SIZE + 1)] := by
  rw [startCompiling_ends w source w.TOKEN_LIST_MAX_SIZE (Nat.le_refl _) h]
  refine ⟨rfl, ?_, ?_, ?_⟩
  · intro hm
    exact (no_overflow_of_ends w source _ _ hm).1 rfl
  · intro hm
    exact (no_overflow_of_ends w source _ _ hm).2 rfl
  · simp only [parserCalls_append, parserCalls_loopEvents, parserCalls_parseEvents]
    rfl

/-- C4, the failing input at an array of two tokens and a lexer output of three. -/
theorem overflow_by_one_not_reported_witness :
    firstEOF ((sampleWorld 2 sampleFile 3 true).scan .indeterminate) 2 ∧
      (startCompiling (sampleWorld 2 sampleFile 3 true) .indeterminate).outcome
        = .returned () ∧
      Event.printf "token overflow!\n"
        ∉ (startCompiling (sampleWorld 2 sampleFile 3 true) .indeterminate).trace ∧
      Event.exit 1 ∉ (startCompiling (sampleWorld 2 sampleFile 3 true) .indeterminate).trace ∧
      parserCalls (startCompiling (sampleWorld 2 sampleFile 3 true) .indeterminate).trace
        = [((List.range (2 + 1)).map (fun i => some (sampleScan 3 .indeterminate i)), 2 + 1)] :=
  ⟨by decide,
    overflow_by_one_not_reported (sampleWorld 2 sampleFile 3 true) .indeterminate (by decide)⟩

/-- The stores of a run of `startCompiling` are at the indices `0`, ..., `n - 1` for some
`n ≤ TOKEN_LIST_MAX_SIZE + 1`, and `n = TOKEN_LIST_MAX_SIZE + 1` when none of the first
`TOKEN_LIST_MAX_SIZE` tokens is `END_OF_FILE`. -/
theorem storeIndices_startCompiling (w : World) (source : Contents) :
    ∃ n ≤ w.TOKEN_LIST_MAX_SIZE + 1,
      storeIndices (startCompiling w source).trace = List.range n ∧
      ((∀ j < w.TOKEN_LIST_MAX_SIZE, (w.scan source j).«class» ≠ .END_OF_FILE) →
        n = w.TOKEN_LIST_MAX_SIZE + 1) := by
  rcases startCompiling_cases w source with ⟨k, hk, hf, he⟩ | ⟨_, he⟩
  · refine ⟨k + 1, by omega, ?_, ?_⟩
    · rw [he]
      simp only [storeIndices_append, storeIndices_loopEvents, storeIndices_parseEvents]
      simp [storeIndices]
    · intro hne
      have : ¬ k < w.TOKEN_LIST_MAX_SIZE := fun hlt => hne k hlt hf.1
      omega
  · refine ⟨w.TOKEN_LIST_MAX_SIZE + 1, Nat.le_refl _, ?_, fun _ => rfl⟩
    rw [he]
    simp [storeIndices_append, storeIndices_loopEvents, storeIndices]

/-- C9, the failing input: when none of the first `TOKEN_LIST_MAX_SIZE` tokens is
`END_OF_FILE`, `startCompiling` stores at index `TOKEN_LIST_MAX_SIZE`, one past the last
element of the array, so not every store is in bounds. -/
theorem store_past_the_end (w : World) (source : Contents)
    (h : ∀ j < w.TOKEN_LIST_MAX_SIZE, (w.scan source j).«class» ≠ .END_OF_FILE) :
    w.TOKEN_LIST_MAX_SIZE ∈ storeIndices (startCompiling w source).trace ∧
      ¬ ∀ i ∈ storeIndices (startCompiling w source).trace, i < w.TOKEN_LIST_MAX_SIZE := by
  obtain ⟨n, _, hs, hn⟩ := storeIndices_startCompiling w source
  have hm : w.TOKEN_LIST_MAX_SIZE ∈ storeIndices (startCompiling w source).trace := by
    rw [hs, hn h]; simp
  exact ⟨hm, fun hall => Nat.lt_irrefl _ (hall _ hm)⟩

/-- C9, the failing input at an array of two tokens and a lexer output of three. -/
theorem store_past_the_end_witness :
    (∀ j < 2, (sampleScan 3 .indeterminate j).«class» ≠ .END_OF_FILE) ∧
      2 ∈ storeIndices (startCompiling (sampleWorld 2 sampleFile 3 true) .indeterminate).trace ∧
      ¬ ∀ i ∈ storeIndices (startCompiling (sampleWorld 2 sampleFile 3 true)
          .indeterminate).trace, i < 2 :=
  ⟨by decide,
    store_past_the_end (sampleWorld 2 sampleFile 3 true) .indeterminate (by decide)⟩

/-- When the first `END_OF_FILE` is token `k` and `k < TOKEN_LIST_MAX_SIZE`, the loop ends
after `k + 1` calls of `getNextToken`, with every store inside the array: `k + 1` executions
of the body are enough, and more fuel changes nothing. -/
theorem token_loop_ends_in_bounds (w : World) (source : Contents) (k extra : Nat)
    (hk : k < w.TOKEN_LIST_MAX_SIZE) (hf : firstEOF (w.scan source) k) :
    startCompilingFuel w (k + 1 + extra) source = startCompiling w source ∧
      (startCompiling w source).outcome = .returned () ∧
      (startCompiling w source).trace.count .getNextToken = k + 1 ∧
      storesInBounds w (startCompiling w source).trace := by
  have he := startCompiling_ends w source k (by omega) hf
  refine ⟨?_, ?_, ?_, ?_⟩
  · rw [startCompilingFuel_ends w source extra k (by omega) hf, he]
  · rw [he]
  · rw [he]
    simp only [List.count_append, count_getNextToken_loopEvents,
      count_getNextToken_parseEvents]
    simp [List.count_cons]
  · intro i hi
    rw [he] at hi
    simp only [storeIndices_append, storeIndices_loopEvents, storeIndices_parseEvents] at hi
    simp [storeIndices] at hi
    omega

/-- C10, the failing input: when none of the tokens `0`, ..., `TOKEN_LIST_MAX_SIZE` is
`END_OF_FILE` (so for a lexer that never returns it), the loop does not end within the
array: after `TOKEN_LIST_MAX_SIZE + 1` calls of `getNextToken`, with no overflow message and
no `exit` so far, it stores at index `TOKEN_LIST_MAX_SIZE`, past the end of `tokens`. The
overflow exit has not been taken at that point. -/
theorem loop_leaves_array_before_overflow_exit (w : World) (source : Contents)
    (h : ∀ j ≤ w.TOKEN_LIST_MAX_SIZE, (w.scan source j).«class» ≠ .END_OF_FILE) :
    ∃ pre post : List Event,
      (startCompiling w source).trace
        = pre ++ Event.store w.TOKEN_LIST_MAX_SIZE (w.scan source w.TOKEN_LIST_MAX_SIZE)
            :: post ∧
      storeIndices pre = List.range w.TOKEN_LIST_MAX_SIZE ∧
      pre.count .getNextToken = w.TOKEN_LIST_MAX_SIZE + 1 ∧
      Event.printf "token overflow!\n" ∉ pre ∧
      Event.exit 1 ∉ pre ∧
      ¬ storesInBounds w (startCompiling w source).trace := by
  have he := startCompiling_overflows w source h
  refine ⟨[.createLexer source] ++ loopEvents (w.scan source) w.TOKEN_LIST_MAX_SIZE
      ++ [.getNextToken], [.getNextToken, .printf "token overflow!\n", .exit 1],
    ?_, ?_, ?_, ?_, ?_, ?_⟩
  · rw [he]
    simp [loopEvents]
  · simp only [storeIndices_append, storeIndices_loopEvents]
    simp [storeIndices]
  · simp only [List.count_append, count_getNextToken_loopEvents]
    simp [List.count_cons]
  · intro hm
    simp only [List.mem_append, List.mem_singleton] at hm
    rcases hm with (hm | hm) | hm
    · cases hm
    · rcases mem_loopEvents _ _ _ hm with hm | ⟨j, _, hm⟩ <;> cases hm
    · cases hm
  · intro hm
    simp only [List.mem_append, List.mem_singleton] at hm
    rcases hm with (hm | hm) | hm
    · cases hm
    · rcases mem_loopEvents _ _ _ hm with hm | ⟨j, _, hm⟩ <;> cases hm
    · cases hm
  · intro hb
    have hm : w.TOKEN_LIST_MAX_SIZE ∈ storeIndices (startCompiling w source).trace := by
      rw [he]
      simp only [storeIndices_append, storeIndices_loopEvents]
      simp [storeIndices]
    exact Nat.lt_irrefl _ (hb _ hm)

/-- C10, the failing input at an array of two tokens and a lexer that never returns
`END_OF_FILE`. -/
theorem loop_leaves_array_before_overflow_exit_witness :
    (∀ j ≤ 2, (endlessScan sampleSource j).«class» ≠ .END_OF_FILE) ∧
      ∃ pre post : List Event,
        (startCompiling (endlessWorld 2) sampleSource).trace
          = pre ++ Event.store 2 (endlessScan sampleSource 2) :: post ∧
        storeIndices pre = List.range 2 ∧
        pre.count .getNextToken = 2 + 1 ∧
        Event.printf "token overflow!\n" ∉ pre ∧
        Event.exit 1 ∉ pre ∧
        ¬ storesInBounds (endlessWorld 2) (startCompiling (endlessWorld 2) sampleSource).trace :=
  ⟨by decide, loop_leaves_array_before_overflow_exit (endlessWorld 2) sampleSource (by decide)⟩

/-! ## `main`, in closed form -/

/-- A call of `readFile` either exits with status 1 after one diagnostic, or returns. -/
theorem readFile_cases (f : FileOps) :
    (∃ m, readFile f = ⟨[.perror m, .exit 1], .exited 1⟩) ∨
      (∃ c, readFile f = ⟨[.fclose], .returned c⟩) := by
  unfold readFile
  split
  · split
    · split
      · exact Or.inl ⟨_, rfl⟩
      · split
        · exact Or.inl ⟨_, rfl⟩
        · split
          · exact Or.inl ⟨_, rfl⟩
          · simp only []
            split
            · exact Or.inl ⟨_, rfl⟩
            · exact Or.inr ⟨_, rfl⟩
    · exact Or.inr ⟨_, rfl⟩
  · exact Or.inl ⟨_, rfl⟩

theorem readFile_seek_fails (f : FileOps) (hopen : f.fopen = true) (hseek : f.fseekEnd ≠ 0) :
    readFile f = ⟨[.fclose], .returned .indeterminate⟩ := by
  simp [readFile, hopen, hseek]

theorem readFile_empty (f : FileOps) (hopen : f.fopen = true) (hseek : f.fseekEnd = 0)
    (hsize : f.ftell = some 0) (hmalloc : f.malloc = true) (hset : f.fseekSet = 0) :
    readFile f = ⟨[.perror "fread: file is empty", .exit 1], .exited 1⟩ := by
  simp [readFile, hopen, hseek, hsize, hmalloc, hset]

theorem readFile_of_returned (f : FileOps) (source : Contents)
    (h : (readFile f).outcome = .returned source) :
    readFile f = ⟨[.fclose], .returned source⟩ := by
  rcases readFile_cases f with ⟨m, hm⟩ | ⟨c, hc⟩
  · rw [hm] at h; cases h
  · rw [hc] at h ⊢
    cases h
    rfl

theorem main_read_fails (w : World) (argv : List String) (m : String)
    (hargc : argv.length > 1)
    (h : readFile (w.file (argv.getD 1 "")) = ⟨[.perror m, .exit 1], .exited 1⟩) :
    main w argv = ⟨[.perror m, .exit 1], .exited 1⟩ := by
  simp only [main, if_pos hargc, h, Run.andThen]

theorem main_ends (w : World) (argv : List String) (source : Contents) (k : Nat)
    (hargc : argv.length > 1)
    (h : readFile (w.file (argv.getD 1 "")) = ⟨[.fclose], .returned source⟩)
    (hk : k ≤ w.TOKEN_LIST_MAX_SIZE) (hf : firstEOF (w.scan source) k) :
    main w argv
      = ⟨[.fclose] ++ ([.createLexer source] ++ loopEvents (w.scan source) (k + 1)
            ++ parseEvents w (w.scan source) (k + 1)) ++ [.free source],
          .returned 0⟩ := by
  simp only [main, if_pos hargc, h, Run.andThen, startCompiling_ends w source k hk hf,
    List.append_assoc]

theorem main_overflows (w : World) (argv : List String) (source : Contents)
    (hargc : argv.length > 1)
    (h : readFile (w.file (argv.getD 1 "")) = ⟨[.fclose], .returned source⟩)
    (hne : ∀ j ≤ w.TOKEN_LIST_MAX_SIZE, (w.scan source j).«class» ≠ .END_OF_FILE) :
    main w argv
      = ⟨[.fclose] ++ ([.createLexer source]
            ++ loopEvents (w.scan source) (w.TOKEN_LIST_MAX_SIZE + 1)
            ++ [.getNextToken, .printf "token overflow!\n", .exit 1]),
          .exited 1⟩ := by
  simp only [main, if_pos hargc, h, Run.andThen, startCompiling_overflows w source hne]

/-- The ways `main` runs. -/
theorem main_cases (w : World) (argv : List String) :
    main w argv = ⟨[.printf "error: no input files\n", .exit 1], .exited 1⟩ ∨
      (∃ m, main w argv = ⟨[.perror m, .exit 1], .exited 1⟩) ∨
      (∃ source k, main w argv
        = ⟨[.fclose] ++ ([.createLexer source] ++ loopEvents (w.scan source) (k + 1)
              ++ parseEvents w (w.scan source) (k + 1)) ++ [.free source],
            .returned 0⟩) ∨
      (∃ source, main w argv
        = ⟨[.fclose] ++ ([.createLexer source]
              ++ loopEvents (w.scan source) (w.TOKEN_LIST_MAX_SIZE + 1)
              ++ [.getNextToken, .printf "token overflow!\n", .exit 1]),
            .exited 1⟩) := by
  by_cases hargc : argv.length > 1
  · rcases readFile_cases (w.file (argv.getD 1 "")) with ⟨m, hm⟩ | ⟨c, hc⟩
    · exact Or.inr (Or.inl ⟨m, main_read_fails w argv m hargc hm⟩)
    · rcases firstEOF_or_none (w.scan c) w.TOKEN_LIST_MAX_SIZE with ⟨k, hk, hf⟩ | hne
      · exact Or.inr (Or.inr (Or.inl ⟨c, k, main_ends w argv c k hargc hc hk hf⟩))
      · exact Or.inr (Or.inr (Or.inr ⟨c, main_overflows w argv c hargc hc hne⟩))
  · left
    simp [main, hargc]

/-- The failures of reading that `readFile` checks are fatal: when the file cannot be opened,
or, the seek to the end having succeeded, the size query fails, the allocation fails, the seek
back to the start fails or the read returns no data, the process exits with status 1 and no
lexer is created. -/
theorem checked_read_failures_fatal (w : World) (argv : List String) (hargc : argv.length > 1)
    (hfail : (w.file (argv.getD 1 "")).fopen = false ∨
      ((w.file (argv.getD 1 "")).fseekEnd = 0 ∧
        ((w.file (argv.getD 1 "")).ftell = none ∨
          (w.file (argv.getD 1 "")).malloc = false ∨
          (w.file (argv.getD 1 "")).fseekSet ≠ 0 ∨
          (w.file (argv.getD 1 "")).ftell = some 0 ∨
          (w.file (argv.getD 1 "")).data = []))) :
    ∃ m, main w argv = ⟨[.perror m, .exit 1], .exited 1⟩ := by
  have hr : ∃ m, readFile (w.file (argv.getD 1 "")) = ⟨[.perror m, .exit 1], .exited 1⟩ := by
    generalize w.file (argv.getD 1 "") = f at hfail
    unfold readFile
    rcases hfail with h | ⟨h0, h⟩
    · simp [h]
    · cases hopen : f.fopen
      · simp
      · simp only [h0, if_true]
        cases ht : f.ftell with
        | none => exact ⟨_, rfl⟩
        | some fileSize =>
          simp only []
          split
          · exact ⟨_, rfl⟩
          · split
            · exact ⟨_, rfl⟩
            · rename_i hm hs
              have hz : min fileSize f.data.length = 0 := by
                rcases h with h | h | h | h | h
                · rw [ht] at h; cases h
                · rw [h] at hm; simp at hm
                · exact absurd h (by simpa using hs)
                · rw [ht] at h; cases h; simp
                · rw [h]; simp
              simp [hz]
  obtain ⟨m, hm⟩ := hr
  exact ⟨m, main_read_fails w argv m hargc hm⟩

/-! ## The claims about `main` -/

/-- C5, the failing input: when the file opens and `fseek(file, 0, SEEK_END)` fails, `readFile`
prints no diagnostic and does not exit: it closes the file and returns its unassigned
`contents`, and `main` goes on to create the lexer over it. -/
theorem seek_failure_not_fatal (w : World) (argv : List String) (hargc : argv.length > 1)
    (hopen : (w.file (argv.getD 1 "")).fopen = true)
    (hseek : (w.file (argv.getD 1 "")).fseekEnd ≠ 0) :
    (main w argv).trace.take 2 = [.fclose, .createLexer .indeterminate] ∧
      ∀ m, Event.perror m ∉ (main w argv).trace := by
  have hr := readFile_seek_fails (w.file (argv.getD 1 "")) hopen hseek
  rcases firstEOF_or_none (w.scan .indeterminate) w.TOKEN_LIST_MAX_SIZE with ⟨k, hk, hf⟩ | hne
  · rw [main_ends w argv .indeterminate k hargc hr hk hf]
    refine ⟨by simp, ?_⟩
    intro m hm
    simp only [List.mem_append, List.mem_singleton] at hm
    rcases hm with (hm | (hm | hm) | hm) | hm
    · cases hm
    · cases hm
    · rcases mem_loopEvents _ _ _ hm with hm | ⟨j, _, hm⟩ <;> cases hm
    · rcases mem_parseEvents _ _ _ _ hm with hm | hm | hm | ⟨hm, _⟩ | hm <;> cases hm
    · cases hm
  · rw [main_overflows w argv .indeterminate hargc hr hne]
    refine ⟨by simp, ?_⟩
    intro m hm
    simp only [List.mem_append, List.mem_singleton, List.mem_cons, List.not_mem_nil,
      or_false] at hm
    rcases hm with hm | (hm | hm) | hm | hm | hm
    · cases hm
    · cases hm
    · rcases mem_loopEvents _ _ _ hm with hm | ⟨j, _, hm⟩ <;> cases hm
    · cases hm
    · cases hm
    · cases hm

/-- C5, the failing input at a stream that cannot seek. -/
theorem seek_failure_not_fatal_witness :
    (main (sampleWorld 4 pipeFile 1 true) ["ark", "/dev/stdin"]).trace.take 2
        = [.fclose, .createLexer .indeterminate] ∧
      ∀ m, Event.perror m ∉ (main (sampleWorld 4 pipeFile 1 true) ["ark", "/dev/stdin"]).trace :=
  seek_failure_not_fatal (sampleWorld 4 pipeFile 1 true) ["ark", "/dev/stdin"] (by decide)
    (by decide) (by decide)

/-- C6, as stated, fails: on a file of zero bytes `fread` returns 0, and the driver prints
`fread: file is empty` and exits with status 1; no lexer is created, no token collected. -/
theorem empty_file_counterexample :
    main (sampleWorld 4 emptyFile 1 true) ["ark", "empty.ark"]
      = ⟨[.perror "fread: file is empty", .exit 1], .exited 1⟩ := by
  decide

/-- C6, amended: a source file of zero bytes is rejected, the process exits with status 1
before a lexer is created (with the diagnostic `fread: file is empty` when no earlier call
fails); when the file is read and the first token of the lexer is `END_OF_FILE`, the token
sequence handed to the parser is exactly that one token, with length 1, and `main`
returns 0. -/
theorem empty_file_rejected (w : World) (argv : List String) (hargc : argv.length > 1) :
    ((w.file (argv.getD 1 "")).fopen = true → (w.file (argv.getD 1 "")).fseekEnd = 0 →
      (w.file (argv.getD 1 "")).ftell = some 0 →
      (main w argv).status = some 1 ∧
        parserCalls (main w argv).trace = [] ∧
        (∀ source, Event.createLexer source ∉ (main w argv).trace) ∧
        ((w.file (argv.getD 1 "")).malloc = true → (w.file (argv.getD 1 "")).fseekSet = 0 →
          (main w argv).trace = [.perror "fread: file is empty", .exit 1])) ∧
    (∀ source, (readFile (w.file (argv.getD 1 ""))).outcome = .returned source →
      (w.scan source 0).«class» = .END_OF_FILE →
      parserCalls (main w argv).trace = [([some (w.scan source 0)], 1)] ∧
        (main w argv).outcome = .returned 0) := by
  constructor
  · intro hopen hseek hsize
    obtain ⟨m, hm⟩ := checked_read_failures_fatal w argv hargc
      (Or.inr ⟨hseek, Or.inr (Or.inr (Or.inr (Or.inl hsize)))⟩)
    refine ⟨by rw [hm]; rfl, by rw [hm]; rfl, ?_, ?_⟩
    · intro source hs
      rw [hm] at hs
      simp at hs
    · intro hmalloc hset
      have hr := readFile_empty (w.file (argv.getD 1 "")) hopen hseek hsize hmalloc hset
      rw [main_read_fails w argv _ hargc hr]
  · intro source hread h0
    have hf : firstEOF (w.scan source) 0 := ⟨h0, fun j hj => absurd hj (Nat.not_lt_zero j)⟩
    rw [main_ends w argv source 0 hargc (readFile_of_returned _ _ hread) (Nat.zero_le _) hf]
    refine ⟨?_, rfl⟩
    simp only [parserCalls_append, parserCalls_loopEvents, parserCalls_parseEvents]
    rfl

/-- C6, amended, at a file of zero bytes, and at a file of one byte in which the lexer finds
no token. -/
theorem empty_file_rejected_witness :
    ((main (sampleWorld 4 emptyFile 1 true) ["ark", "empty.ark"]).status = some 1 ∧
        parserCalls (main (sampleWorld 4 emptyFile 1 true) ["ark", "empty.ark"]).trace = [] ∧
        (∀ source, Event.createLexer source
          ∉ (main (sampleWorld 4 emptyFile 1 true) ["ark", "empty.ark"]).trace) ∧
        (emptyFile.malloc = true → emptyFile.fseekSet = 0 →
          (main (sampleWorld 4 emptyFile 1 true) ["ark", "empty.ark"]).trace
            = [.perror "fread: file is empty", .exit 1])) ∧
      (parserCalls (main (sampleWorld 4 sampleFile 1 true) ["ark", "x.ark"]).trace
          = [([some eofToken], 1)] ∧
        (main (sampleWorld 4 sampleFile 1 true) ["ark", "x.ark"]).outcome = .returned 0) :=
  ⟨(empty_file_rejected (sampleWorld 4 emptyFile 1 true) ["ark", "empty.ark"]
      (by decide)).1 rfl rfl rfl,
    (empty_file_rejected (sampleWorld 4 sampleFile 1 true) ["ark", "x.ark"]
      (by decide)).2 (.buffer [some 'x', some (Char.ofNat 0)]) (by decide) (by decide)⟩

/-- C7, as stated, fails: in a run in which the file is read and lexed and `parseToAST`
returns false, the exit status is 0. -/
theorem parse_failure_counterexample :
    Event.parseToAST false ∈ (main (sampleWorld 4 sampleFile 2 false) ["ark", "x.ark"]).trace ∧
      (main (sampleWorld 4 sampleFile 2 false) ["ark", "x.ark"]).status = some 0 := by
  decide

/-- C7, amended: parse failure does not reach the exit status: in every run in which the file
is read into a buffer, every token is stored inside the array and `parseToAST` reports
failure, `No top level expression` is printed, `main` ends by freeing the buffer and the exit
status is 0. -/
theorem parse_failure_exits_zero (w : World) (argv : List String)
    (hdef : wellDefined w (main w argv).trace)
    (h : Event.parseToAST false ∈ (main w argv).trace) :
    (main w argv).status = some 0 ∧
      Event.printf "No top level expression\n" ∈ (main w argv).trace ∧
      ∃ cells, (main w argv).trace.getLast? = some (.free (.buffer cells)) := by
  rcases main_cases w argv with he | ⟨m, he⟩ | ⟨source, k, he⟩ | ⟨source, he⟩
  · rw [he] at h; simp at h
  · rw [he] at h; simp at h
  · rw [he] at h hdef ⊢
    refine ⟨rfl, ?_, ?_⟩
    · simp only [List.mem_append, List.mem_singleton] at h
      rcases h with (h | (h | h) | h) | h
      · cases h
      · cases h
      · rcases mem_loopEvents _ _ _ h with h | ⟨j, _, h⟩ <;> cases h
      · have hp : w.parse ((List.range (k + 1)).map fun i => some (w.scan source i)) (k + 1)
            = false := by
          rcases mem_parseEvents _ _ _ _ h with h | h | h | ⟨h, _⟩ | h
          · cases h
          · cases h
          · injection h with h; exact h.symm
          · cases h
          · cases h
        simp [parseEvents, hp]
      · cases h
    · cases source with
      | indeterminate => exact absurd (by simp) hdef.2.2
      | buffer cells => exact ⟨cells, List.getLast?_concat _⟩
  · rw [he] at h
    simp only [List.mem_append, List.mem_singleton, List.mem_cons, List.not_mem_nil,
      or_false] at h
    rcases h with h | (h | h) | h | h | h
    · cases h
    · cases h
    · rcases mem_loopEvents _ _ _ h with h | ⟨j, _, h⟩ <;> cases h
    · cases h
    · cases h
    · cases h

/-- C7, amended, at a run in which the parser fails. -/
theorem parse_failure_exits_zero_witness :
    wellDefined (sampleWorld 4 sampleFile 2 false)
        (main (sampleWorld 4 sampleFile 2 false) ["ark", "x.ark"]).trace ∧
      Event.parseToAST false
        ∈ (main (sampleWorld 4 sampleFile 2 false) ["ark", "x.ark"]).trace ∧
      (main (sampleWorld 4 sampleFile 2 false) ["ark", "x.ark"]).status = some 0 ∧
      Event.printf "No top level expression\n"
        ∈ (main (sampleWorld 4 sampleFile 2 false) ["ark", "x.ark"]).trace ∧
      ∃ cells, (main (sampleWorld 4 sampleFile 2 false) ["ark", "x.ark"]).trace.getLast?
        = some (.free (.buffer cells)) :=
  ⟨by decide, by decide,
    parse_failure_exits_zero (sampleWorld 4 sampleFile 2 false) ["ark", "x.ark"] (by decide)
      (by decide)⟩

/-- In a run given a file argument in which `readFile` returns, the token loop ends without
the overflow exit and no step is without a defined behaviour (the file was read into a buffer,
every store is inside the array), `parseToAST` is called exactly once, the message
`No top level expression` is printed once when it returns false and not at all when it
returns true, and `main` returns 0 in both cases. -/
theorem parse_reported_when_defined (w : World) (argv : List String) (source : Contents)
    (hargc : argv.length > 1)
    (hread : (readFile (w.file (argv.getD 1 ""))).outcome = .returned source)
    (hloop : (startCompiling w source).outcome ≠ .exited 1)
    (hdef : wellDefined w (main w argv).trace) :
    ∃ ok : Bool, parseResults (main w argv).trace = [ok] ∧
      (main w argv).trace.count (.printf "No top level expression\n")
        = (if ok then 0 else 1) ∧
      (main w argv).outcome = .returned 0 ∧
      source ≠ .indeterminate := by
  rcases startCompiling_cases w source with ⟨k, hk, hf, _⟩ | ⟨_, he⟩
  · refine ⟨w.parse ((List.range (k + 1)).map fun i => some (w.scan source i)) (k + 1), ?_⟩
    have hm := main_ends w argv source k hargc (readFile_of_returned _ _ hread) hk hf
    refine ⟨?_, ?_, by rw [hm], ?_⟩
    · rw [hm]
      simp only [parseResults_append, parseResults_loopEvents, parseResults_parseEvents]
      rfl
    · rw [hm]
      simp only [List.count_append, count_printf_loopEvents, count_message_parseEvents]
      simp [List.count_cons]
    · intro hs
      apply hdef.2.2
      rw [hm, hs]
      simp
  · rw [he] at hloop
    exact absurd rfl hloop

/-- C8, the failing input: when the file is read and the first `END_OF_FILE` is token
`TOKEN_LIST_MAX_SIZE`, `readFile` returns and the token loop ends without the overflow
message, as the claim supposes; but the last token was stored at index
`TOKEN_LIST_MAX_SIZE`, past the end of `tokens`, so the run that is to call `parseToAST` and
return 0 has no defined behaviour. -/
theorem parse_report_after_store_past_end (w : World) (argv : List String)
    (cells : List (Option Char)) (hargc : argv.length > 1)
    (hread : (readFile (w.file (argv.getD 1 ""))).outcome = .returned (.buffer cells))
    (hf : firstEOF (w.scan (.buffer cells)) w.TOKEN_LIST_MAX_SIZE) :
    Event.printf "token overflow!\n" ∉ (main w argv).trace ∧
      w.TOKEN_LIST_MAX_SIZE ∈ storeIndices (main w argv).trace ∧
      ¬ wellDefined w (main w argv).trace := by
  have hm := main_ends w argv (.buffer cells) w.TOKEN_LIST_MAX_SIZE hargc
    (readFile_of_returned _ _ hread) (Nat.le_refl _) hf
  have hs : w.TOKEN_LIST_MAX_SIZE ∈ storeIndices (main w argv).trace := by
    rw [hm]
    simp only [storeIndices_append, storeIndices_loopEvents, storeIndices_parseEvents]
    simp [storeIndices]
  refine ⟨?_, hs, fun hdef => Nat.lt_irrefl _ (hdef.1 _ hs)⟩
  rw [hm]
  intro hx
  simp only [List.mem_append, List.mem_singleton] at hx
  rcases hx with (hx | hx) | hx
  · cases hx
  · exact (no_overflow_of_ends w (.buffer cells) _ _
      (by simpa only [List.mem_append, List.mem_singleton] using hx)).1 rfl
  · cases hx

/-- C8, the failing input at an array of two tokens and a lexer output of three. -/
theorem parse_report_after_store_past_end_witness :
    firstEOF ((sampleWorld 2 sampleFile 3 false).scan sampleSource) 2 ∧
      Event.printf "token overflow!\n"
        ∉ (main (sampleWorld 2 sampleFile 3 false) ["ark", "x.ark"]).trace ∧
      2 ∈ storeIndices (main (sampleWorld 2 sampleFile 3 false) ["ark", "x.ark"]).trace ∧
      ¬ wellDefined (sampleWorld 2 sampleFile 3 false)
        (main (sampleWorld 2 sampleFile 3 false) ["ark", "x.ark"]).trace :=
  ⟨by decide,
    parse_report_after_store_past_end (sampleWorld 2 sampleFile 3 false) ["ark", "x.ark"]
      [some 'x', some (Char.ofNat 0)] (by decide) (by decide) (by decide)⟩

end Ark
